import Mathlib

/-!
Shallow embedding of the visit-tracking and quota-enforcement engine of the
site-counter browser extension, together with proofs of its specified
properties.

The embedding follows the version-2 background script (`DomainDB` with the
`domains` aggregate table and the append-only `visits` table) and the content
script (quota checks and enforcement UI).  Conventions:

* Timestamps are modelled as natural numbers counting seconds of local time.
  The source stores `new Date().toISOString()` strings; for timestamps of the
  same era these ISO strings compare lexicographically exactly as the instants
  they denote compare chronologically, so the order structure is preserved.
* The IndexedDB object stores are modelled as lists of rows.  `put` on a store
  with key path `domain` replaces the row with the same key (or inserts), and
  `add` on the auto-increment `visits` store appends a fresh row.
* IndexedDB failure semantics: an error event on a request whose handler does
  not call `preventDefault()` aborts the enclosing transaction, rolling back
  every write made in it.  The source registers `onerror` handlers but never
  calls `preventDefault()`, so any failing request aborts the whole
  transaction.  Fallible store operations therefore take an explicit outcome
  parameter and return the rolled-back (unchanged) state on failure.
* JS objects used as dictionaries (`visitCounts`, `lastVisits`) are modelled
  as total functions `String → Nat` (with the `|| 0` default) respectively
  `String → Option Nat` (`undefined` is `none`; stored ISO strings are
  non-empty, hence always truthy, so `lastVisits[d] || fallback` is
  `Option.getD`).
-/

namespace SiteCounter

/-- One row of the `domains` object store (key path `domain`):
the per-domain aggregate maintained by `DomainDB.addOrUpdateDomain`. -/
structure DomainAggregate where
  domain : String
  firstVisit : Nat
  lastVisit : Nat
  visitCount : Nat
deriving Repr, DecidableEq

/-- One row of the append-only `visits` object store
(auto-increment key `id`). -/
structure VisitEvent where
  id : Nat
  domain : String
  timestamp : Nat
deriving Repr, DecidableEq

/-- The persistent state of `FoculaticsDB` (schema version 2):
both object stores plus the auto-increment key generator of `visits`. -/
structure DB where
  domains : List DomainAggregate
  visits : List VisitEvent
  nextId : Nat
deriving Repr, DecidableEq

/-- A freshly created database: both stores empty, key generator at 1. -/
def emptyDB : DB := { domains := [], visits := [], nextId := 1 }

/-- IndexedDB `store.put` on the `domains` store (key path `domain`):
replace the row carrying the same key, or insert the row if absent. -/
def putDomain : List DomainAggregate → DomainAggregate → List DomainAggregate
  | [], a => [a]
  | x :: xs, a => if x.domain == a.domain then a :: xs else x :: putDomain xs a

/-- IndexedDB `store.get(domain)` on the `domains` store. -/
def findAggregate (db : DB) (domain : String) : Option DomainAggregate :=
  db.domains.find? (fun a => a.domain == domain)

/-- Outcome of the individual IndexedDB requests issued by one
`addOrUpdateDomain` transaction. -/
inductive WriteOutcome where
  | ok
  | getFails
  | putFails
  | addFails
deriving Repr, DecidableEq

/-- `DomainDB.addOrUpdateDomain(domain)` (version-2 script): inside one
`readwrite` transaction over `domains` and `visits`, read the existing
aggregate, upsert the incremented (or fresh) aggregate, then `add` a visit
row with the same `now` timestamp.  Error handling follows the source plus
IndexedDB semantics: a failed `get` or `put` rejects the promise; a failed
visit `add` still resolves with the aggregate ("Still resolve even if visit
record fails") — but since no handler calls `preventDefault()`, any failed
request aborts the transaction and rolls back every write, so all three
failure outcomes leave the stored state unchanged. -/
def addOrUpdateDomain (db : DB) (domain : String) (now : Nat) (o : WriteOutcome) :
    DB × Except String DomainAggregate :=
  match o with
  | .getFails => (db, .error "Failed to get domain")
  | o =>
    let existingData := findAggregate db domain
    let domainData : DomainAggregate :=
      match existingData with
      | some e =>
        { domain := domain, firstVisit := e.firstVisit, lastVisit := now,
          visitCount := e.visitCount + 1 }
      | none =>
        { domain := domain, firstVisit := now, lastVisit := now, visitCount := 1 }
    match o with
    | .putFails => (db, .error "Failed to save domain")
    | .addFails => (db, .ok domainData)
    | _ =>
      ({ domains := putDomain db.domains domainData,
         visits := db.visits ++ [{ id := db.nextId, domain := domain, timestamp := now }],
         nextId := db.nextId + 1 },
       .ok domainData)

/-- A run of accepted (fully successful) `addOrUpdateDomain` calls for one
domain, at the given sequence of call timestamps. -/
def runVisits (db : DB) (domain : String) (ts : List Nat) : DB :=
  ts.foldl (fun s t => (addOrUpdateDomain s domain t WriteOutcome.ok).1) db

/-- One `recordVisit` request as the store sees it: the target domain, the
timestamp taken at the call, and how its transaction's requests fare. -/
structure RecordOp where
  domain : String
  now : Nat
  outcome : WriteOutcome
deriving Repr, DecidableEq

/-- A run of `addOrUpdateDomain` calls, each with its own domain, timestamp
and write outcome. -/
def runOps (db : DB) (ops : List RecordOp) : DB :=
  ops.foldl (fun s op => (addOrUpdateDomain s op.domain op.now op.outcome).1) db

/-- The spec's store invariant: every aggregate row's `visitCount` equals the
number of visit rows for its domain, and its `lastVisit` is a timestamp of
one of those rows that bounds all of them (i.e. their maximum). -/
def dbConsistent (db : DB) : Prop :=
  ∀ a ∈ db.domains,
    a.visitCount = (db.visits.filter (fun v => v.domain == a.domain)).length ∧
    a.lastVisit ∈ (db.visits.filter (fun v => v.domain == a.domain)).map VisitEvent.timestamp ∧
    ∀ t ∈ (db.visits.filter (fun v => v.domain == a.domain)).map VisitEvent.timestamp,
      t ≤ a.lastVisit

/-- Key uniqueness of the `domains` store: `domain` is its key path, so
IndexedDB keeps at most one row per domain. -/
def keysNodup (db : DB) : Prop :=
  (db.domains.map DomainAggregate.domain).Nodup

/-- Every visit row references an existing aggregate row. -/
def visitsCovered (db : DB) : Prop :=
  ∀ v ∈ db.visits, ∃ a ∈ db.domains, a.domain = v.domain

/-- Combined well-formedness of a database state. -/
def storeWF (db : DB) : Prop :=
  dbConsistent db ∧ keysNodup db ∧ visitsCovered db

/-- All stored visit timestamps are at most `n`. -/
def visitsBelow (db : DB) (n : Nat) : Prop :=
  ∀ v ∈ db.visits, v.timestamp ≤ n

/-! ### Quota evaluation (content script) -/

/-- `maybeShowQuotaMessage(domain, visitCount)`: with the parsed per-domain
limit already extracted from `siteQuotasCache` (`parseInt(...) || 0`), the
soft warning fires exactly when quota checking is on, the limit is positive,
and the today-count strictly exceeds the limit.  Returns whether
`showQuotaExceededMessage` is invoked. -/
def maybeShowQuotaMessage (quotaEnabled : Bool) (maxPerDay visitCount : Int) : Bool :=
  if !quotaEnabled || maxPerDay == 0 || maxPerDay ≤ 0 then false
  else visitCount > maxPerDay

/-- `maybeHardBlock(domain, visitCount)`: as `maybeShowQuotaMessage` but also
requires `hardBlockEnabled`; returns whether `showHardBlockOverlay` is
invoked. -/
def maybeHardBlock (quotaEnabled hardBlockEnabled : Bool) (maxPerDay visitCount : Int) : Bool :=
  if !quotaEnabled || !hardBlockEnabled || maxPerDay == 0 || maxPerDay ≤ 0 then false
  else visitCount > maxPerDay

/-! ### Enforcement dispatcher (content script page-instance state) -/

/-- Page-instance-local enforcement state: the two "already shown" window
flags plus counters of the UI elements created so far in this page
instance. -/
structure PageState where
  quotaShown : Bool
  hardBlocked : Bool
  notificationCount : Nat
  overlayCount : Nat
deriving Repr, DecidableEq

/-- The state of a freshly loaded page instance. -/
def initialPageState : PageState :=
  { quotaShown := false, hardBlocked := false, notificationCount := 0, overlayCount := 0 }

/-- `showQuotaExceededMessage(text)`: guarded by the page-local
`window.__foculaticsQuotaShown` flag; at most one notification element is
created per page instance. -/
def showQuotaExceededMessage (s : PageState) : PageState :=
  if s.quotaShown then s
  else { s with quotaShown := true, notificationCount := s.notificationCount + 1 }

/-- `showHardBlockOverlay(domain, visits, max)`: guarded by the page-local
`window.__foculaticsHardBlocked` flag; at most one overlay element is created
per page instance. -/
def showHardBlockOverlay (s : PageState) : PageState :=
  if s.hardBlocked then s
  else { s with hardBlocked := true, overlayCount := s.overlayCount + 1 }

/-- One invocation of the enforcement dispatcher within a page instance. -/
inductive EnforceCall where
  | soft
  | hard
deriving Repr, DecidableEq

/-- Run a sequence of dispatcher invocations on a page-instance state. -/
def runEnforce (s : PageState) (calls : List EnforceCall) : PageState :=
  calls.foldl
    (fun s c =>
      match c with
      | .soft => showQuotaExceededMessage s
      | .hard => showHardBlockOverlay s)
    s

/-! ### Navigation classifier (background script `webNavigation.onCommitted`) -/

/-- JS `String.prototype.startsWith`, as a character-list test. -/
def jsStartsWith (s p : String) : Bool :=
  p.data.isPrefixOf s.data

/-- The fields of a parsed URL the classifier looks at, as produced by
`new URL(details.url)` (`protocol` keeps its trailing colon, e.g.
`"https:"`). -/
structure UrlParts where
  protocol : String
  hostname : String
deriving Repr, DecidableEq

/-- A `webNavigation.onCommitted` event, with the URL already run through the
platform's `new URL` parser: `none` stands for a missing/empty `details.url`
or one the parser throws on. -/
structure NavDetails where
  frameId : Nat
  transitionType : String
  transitionQualifiers : List String
  url : Option UrlParts
deriving Repr, DecidableEq

/-- The whitelist of user-initiated transition types. -/
def userInitiatedTransitions : List String :=
  ["typed", "auto_bookmark", "auto_toplevel", "form_submit", "reload", "link"]

/-- The `webNavigation.onCommitted` listener's decision: `true` exactly when
the listener reaches `domainDB.addOrUpdateDomain(url.hostname)`, i.e. when a
Visit Store write is performed for the event. -/
def shouldTrackNavigation (trackingEnabled : Bool) (details : NavDetails) : Bool :=
  if !trackingEnabled then false
  else if details.frameId == 0 then
    let isUserInitiated :=
      userInitiatedTransitions.contains details.transitionType ||
        details.transitionQualifiers.contains "from_address_bar"
    if isUserInitiated then
      match details.url with
      | some url => url.hostname != "" && jsStartsWith url.protocol "http"
      | none => false
    else false
  else false

/-- The spec's classifier acceptance condition, following the words of claim
C5 / spec rule 4.2: top-level, tracking on, URL parses with an http/https
scheme and a non-empty hostname, and a whitelisted transition type or the
`from_address_bar` qualifier. -/
def specTrackCondition (trackingEnabled : Bool) (details : NavDetails) : Prop :=
  details.frameId = 0 ∧ trackingEnabled = true ∧
  (∃ u, details.url = some u ∧ u.hostname ≠ "" ∧
    (u.protocol = "http:" ∨ u.protocol = "https:")) ∧
  (details.transitionType ∈ userInitiatedTransitions ∨
    "from_address_bar" ∈ details.transitionQualifiers)

/-! ### Period aggregation (version-2 `getDomainsForPeriod`) -/

/-- Seconds in a day, for calendar arithmetic on local-time timestamps. -/
def secondsPerDay : Nat := 86400

/-- The period's `startDate` as computed in `getDomainsForPeriod`: for
`today`, `new Date(now.getFullYear(), now.getMonth(), now.getDate())` is the
local midnight of the query day, i.e. `now` rounded down to a multiple of a
day on the local clock; `week`/`month` are rolling windows; `all` is
`new Date(0)`. -/
def startBoundary (period : String) (now : Nat) : Nat :=
  if period == "today" then now - now % secondsPerDay
  else if period == "week" then now - 7 * secondsPerDay
  else if period == "month" then now - 30 * secondsPerDay
  else 0

/-- `getAllDomains(sortBy)`: every aggregate row, iterated through the
requested index with a `prev` cursor, i.e. sorted descending by that field;
any other `sortBy` walks the store in key order (modelled as stored order). -/
def getAllDomains (db : DB) (sortBy : String) : List DomainAggregate :=
  if sortBy == "lastVisit" then
    db.domains.mergeSort (fun a b => decide (b.lastVisit ≤ a.lastVisit))
  else if sortBy == "visitCount" then
    db.domains.mergeSort (fun a b => decide (b.visitCount ≤ a.visitCount))
  else db.domains

/-- One cursor step of the visits scan in `getDomainsForPeriod`:
`visitCounts[visit.domain] = (visitCounts[visit.domain] || 0) + 1`, and
`lastVisits[visit.domain]` is raised to `visit.timestamp` when unset or
smaller. -/
def visitsFoldStep (acc : (String → Nat) × (String → Option Nat)) (v : VisitEvent) :
    (String → Nat) × (String → Option Nat) :=
  (fun k => if k == v.domain then acc.1 k + 1 else acc.1 k,
   fun k =>
     if k == v.domain then
       match acc.2 k with
       | none => some v.timestamp
       | some m => if m < v.timestamp then some v.timestamp else some m
     else acc.2 k)

/-- The running-maximum update performed by one cursor step on
`lastVisits[d]`: set when unset, raise when strictly larger. -/
def maxStepOpt (o : Option Nat) (t : Nat) : Option Nat :=
  match o with
  | none => some t
  | some m => if m < t then some t else some m

/-- The full visits cursor walk: per-domain counts and per-domain latest
timestamps over the scanned visit rows. -/
def visitsFold (vs : List VisitEvent) : (String → Nat) × (String → Option Nat) :=
  vs.foldl visitsFoldStep (fun _ => 0, fun _ => none)

/-- One element of the `getDomainsForPeriod` result: the spread aggregate
with `visitCount`/`lastVisit` overwritten by the period-scoped values and the
period count duplicated in `periodVisitCount`. -/
structure PeriodRecord where
  domain : String
  firstVisit : Nat
  lastVisit : Nat
  visitCount : Nat
  periodVisitCount : Nat
deriving Repr, DecidableEq

/-- `DomainDB.getDomainsForPeriod(period)` (version-2 script): fetch all
aggregates, compute the period's start boundary, scan the `visits` store over
`IDBKeyRange.lowerBound(startDate)` (timestamps `≥` the boundary) building
per-domain counts and latest timestamps, then keep only aggregates with a
positive period count and overwrite their `visitCount`/`lastVisit` with the
period-scoped values. -/
def getDomainsForPeriod (db : DB) (period : String) (now : Nat) : List PeriodRecord :=
  let domains := getAllDomains db "lastVisit"
  let start := startBoundary period now
  let scanned := db.visits.filter (fun v => start ≤ v.timestamp)
  let visitCounts := (visitsFold scanned).1
  let lastVisits := (visitsFold scanned).2
  (domains.filter (fun domain => 0 < visitCounts domain.domain)).map
    (fun domain =>
      { domain := domain.domain,
        firstVisit := domain.firstVisit,
        visitCount := visitCounts domain.domain,
        lastVisit := (lastVisits domain.domain).getD domain.lastVisit,
        periodVisitCount := visitCounts domain.domain })

/-- The `getDomains` message handler's sort step (version-2 script):
`request.sortBy || 'lastVisit'`, then an in-place stable sort descending by
`visitCount` (comparator `b.visitCount - a.visitCount`) or by `lastVisit`
(comparator `new Date(b.lastVisit) - new Date(a.lastVisit)`); any other
`sortBy` string leaves the list as produced. -/
def sortGetDomains (sortBy : Option String) (ds : List PeriodRecord) : List PeriodRecord :=
  let s := sortBy.getD "lastVisit"
  if s == "visitCount" then ds.mergeSort (fun a b => decide (b.visitCount ≤ a.visitCount))
  else if s == "lastVisit" then ds.mergeSort (fun a b => decide (b.lastVisit ≤ a.lastVisit))
  else ds

/-- The full `getDomains` message handler: period aggregation followed by the
requested sort. -/
def handleGetDomains (db : DB) (period : String) (now : Nat) (sortBy : Option String) :
    List PeriodRecord :=
  sortGetDomains sortBy (getDomainsForPeriod db period now)

/-! ### Clear-all (version-2 `clearAllDomains`) -/

/-- Outcome of the two clear requests issued by one `clearAllDomains`
transaction. -/
inductive ClearOutcome where
  | ok
  | domainsClearFails
  | visitsClearFails
deriving Repr, DecidableEq

/-- `DomainDB.clearAllDomains()` (version-2 script): one `readwrite`
transaction clearing both object stores, resolving once both clears succeed
and rejecting if either fails.  An unhandled request error aborts the
transaction and rolls back both clears, so a failed clear leaves the state
untouched (`clear()` does not reset the auto-increment key generator).
Returns the resulting state and whether the promise resolved. -/
def clearAllDomains (db : DB) (o : ClearOutcome) : DB × Bool :=
  match o with
  | .ok => ({ domains := [], visits := [], nextId := db.nextId }, true)
  | .domainsClearFails => (db, false)
  | .visitsClearFails => (db, false)

/-- Page-instance invariant: each "already shown" flag accounts for the
corresponding UI-element count. -/
def pageInv (s : PageState) : Prop :=
  (s.quotaShown = false → s.notificationCount = 0) ∧ s.notificationCount ≤ 1 ∧
  (s.hardBlocked = false → s.overlayCount = 0) ∧ s.overlayCount ≤ 1

/-! ## Theorems -/

/-- C4: with quota checking enabled and a configured positive `maxPerDay`, a
today-count equal to `maxPerDay` triggers neither the soft warning nor the
hard block, while any strictly larger count triggers the soft warning when
`hardBlockEnabled` is false and the hard-block overlay when it is true: the
comparison is strictly greater-than in both paths. -/
theorem quota_strictly_greater (hb : Bool) (maxPerDay visitCount : Int)
    (hpos : 0 < maxPerDay) :
    (visitCount = maxPerDay →
      maybeShowQuotaMessage true maxPerDay visitCount = false ∧
      maybeHardBlock true hb maxPerDay visitCount = false) ∧
    (maxPerDay < visitCount →
      (hb = false → maybeShowQuotaMessage true maxPerDay visitCount = true) ∧
      (hb = true → maybeHardBlock true hb maxPerDay visitCount = true)) := by
  refine ⟨?_, fun hlt => ⟨?_, ?_⟩⟩ <;>
    intros <;>
    simp_all [maybeShowQuotaMessage, maybeHardBlock] <;>
    omega

/-- Witness for `quota_strictly_greater` at `maxPerDay = 5`: 5 visits today
give no enforcement, a 6th gives the soft warning (hard block off) or the
overlay (hard block on). -/
theorem quota_strictly_greater_witness :
    (maybeShowQuotaMessage true 5 5 = false ∧ maybeHardBlock true false 5 5 = false) ∧
    (maybeShowQuotaMessage true 5 6 = true ∧ maybeHardBlock true true 5 6 = true) :=
  ⟨(quota_strictly_greater false 5 5 (by decide)).1 rfl,
   ((quota_strictly_greater false 5 6 (by decide)).2 (by decide)).1 rfl,
   ((quota_strictly_greater true 5 6 (by decide)).2 (by decide)).2 rfl⟩

theorem pageInv_showQuota (s : PageState) (h : pageInv s) :
    pageInv (showQuotaExceededMessage s) := by
  obtain ⟨h1, h2, h3, h4⟩ := h
  unfold pageInv showQuotaExceededMessage
  split <;> simp_all

theorem pageInv_showHardBlock (s : PageState) (h : pageInv s) :
    pageInv (showHardBlockOverlay s) := by
  obtain ⟨h1, h2, h3, h4⟩ := h
  unfold pageInv showHardBlockOverlay
  split <;> simp_all

theorem pageInv_runEnforce (calls : List EnforceCall) :
    ∀ s : PageState, pageInv s → pageInv (runEnforce s calls) := by
  induction calls with
  | nil => exact fun s hs => hs
  | cons c cs ih =>
    intro s hs
    cases c with
    | soft => exact ih _ (pageInv_showQuota s hs)
    | hard => exact ih _ (pageInv_showHardBlock s hs)

/-- C9: the enforcement dispatcher is idempotent per page instance: any
sequence of soft/hard invocations starting from a fresh page creates at most
one notification and at most one overlay, and each of the two entry points is
literally idempotent on the page state. -/
theorem enforcement_idempotent (calls : List EnforceCall) :
    (runEnforce initialPageState calls).notificationCount ≤ 1 ∧
    (runEnforce initialPageState calls).overlayCount ≤ 1 ∧
    (∀ s : PageState,
      showQuotaExceededMessage (showQuotaExceededMessage s) = showQuotaExceededMessage s) ∧
    (∀ s : PageState,
      showHardBlockOverlay (showHardBlockOverlay s) = showHardBlockOverlay s) := by
  have hinv : pageInv (runEnforce initialPageState calls) :=
    pageInv_runEnforce calls initialPageState (by simp [pageInv, initialPageState])
  refine ⟨hinv.2.1, hinv.2.2.2, fun s => ?_, fun s => ?_⟩
  · unfold showQuotaExceededMessage
    split <;> simp
  · unfold showHardBlockOverlay
    split <;> simp

/-- C6: `clearAllDomains` is atomic over both tables: a resolved clear leaves
both stores empty, and a failed clear (either request erroring aborts the
transaction) leaves the full pre-clear state — never one table cleared and
the other not. -/
theorem clearAll_atomic (db : DB) (o : ClearOutcome) :
    ((clearAllDomains db o).2 = true →
      (clearAllDomains db o).1.domains = [] ∧ (clearAllDomains db o).1.visits = [] ∧
      getAllDomains (clearAllDomains db o).1 "lastVisit" = []) ∧
    ((clearAllDomains db o).2 = false → (clearAllDomains db o).1 = db) := by
  cases o <;> simp [clearAllDomains, getAllDomains]

/-- Witness for `clearAll_atomic` on a concrete populated store: a successful
clear empties both tables; a failed domains-clear leaves the state intact. -/
theorem clearAll_atomic_witness :
    (clearAllDomains
        { domains := [{ domain := "a.com", firstVisit := 1, lastVisit := 2, visitCount := 2 }],
          visits := [{ id := 1, domain := "a.com", timestamp := 1 },
                     { id := 2, domain := "a.com", timestamp := 2 }],
          nextId := 3 } ClearOutcome.ok).1.domains = [] ∧
    (clearAllDomains
        { domains := [{ domain := "a.com", firstVisit := 1, lastVisit := 2, visitCount := 2 }],
          visits := [{ id := 1, domain := "a.com", timestamp := 1 },
                     { id := 2, domain := "a.com", timestamp := 2 }],
          nextId := 3 } ClearOutcome.domainsClearFails).1 =
      { domains := [{ domain := "a.com", firstVisit := 1, lastVisit := 2, visitCount := 2 }],
        visits := [{ id := 1, domain := "a.com", timestamp := 1 },
                   { id := 2, domain := "a.com", timestamp := 2 }],
        nextId := 3 } :=
  ⟨((clearAll_atomic _ ClearOutcome.ok).1 rfl).1,
   (clearAll_atomic _ ClearOutcome.domainsClearFails).2 rfl⟩

/-- C5 counterexample: at a top-level, tracking-enabled, link-click event
whose URL parses with scheme `httpx` (so protocol `"httpx:"`, as
`new URL("httpx://example.com/")` yields) and hostname `example.com`, the
listener performs a Visit Store write although the scheme is neither `http`
nor `https`, refuting the claimed if-and-only-if. -/
theorem classifier_scheme_counterexample :
    ¬ (shouldTrackNavigation true
        { frameId := 0, transitionType := "link", transitionQualifiers := [],
          url := some { protocol := "httpx:", hostname := "example.com" } } = true ↔
       specTrackCondition true
        { frameId := 0, transitionType := "link", transitionQualifiers := [],
          url := some { protocol := "httpx:", hostname := "example.com" } }) := by
  intro h
  have hl : shouldTrackNavigation true
      { frameId := 0, transitionType := "link", transitionQualifiers := [],
        url := some { protocol := "httpx:", hostname := "example.com" } } = true := by
    decide
  obtain ⟨-, -, ⟨u, hu, -, hp⟩, -⟩ := h.mp hl
  have hu' : u = { protocol := "httpx:", hostname := "example.com" } := by
    exact Option.some.inj hu.symm
  subst hu'
  rcases hp with hp | hp <;> exact absurd hp (by decide)

/-- C5 (amended): a Visit Store write is performed iff the event is top-level
(`frameId == 0`), tracking is enabled, the URL parses with a non-empty
hostname and a protocol that starts with `"http"` (which admits `http` and
`https`), and the transition type is whitelisted or the qualifiers include
`from_address_bar`; in particular an event with `frameId != 0` never produces
a write. -/
theorem classifier_characterization (te : Bool) (dt : NavDetails) :
    (shouldTrackNavigation te dt = true ↔
      dt.frameId = 0 ∧ te = true ∧
      (∃ u, dt.url = some u ∧ u.hostname ≠ "" ∧ jsStartsWith u.protocol "http" = true) ∧
      (dt.transitionType ∈ userInitiatedTransitions ∨
        "from_address_bar" ∈ dt.transitionQualifiers)) ∧
    (dt.frameId ≠ 0 → shouldTrackNavigation te dt = false) := by
  obtain ⟨fid, tt, tq, u⟩ := dt
  cases te <;> cases u <;>
    simp [shouldTrackNavigation, List.elem_iff] <;>
    by_cases hf : fid = 0 <;>
    simp_all <;>
    tauto

theorem mergeSort_key_sorted {α : Type} (key : α → Nat) (l : List α) :
    (l.mergeSort (fun a b => decide (key b ≤ key a))).Sorted (fun a b => key b ≤ key a) := by
  have h := @List.sorted_mergeSort _ (fun a b => decide (key b ≤ key a))
    (fun a b c hab hbc => by
      simp only [decide_eq_true_eq] at *
      omega)
    (fun a b => by
      simpa using Nat.le_total (key b) (key a))
    l
  exact h.imp (fun hab => by simpa using hab)

/-- C8: the `getDomains` handler returns the period aggregation output sorted
descending by the requested field — by `visitCount` when `sortBy` is
`visitCount`, and by `lastVisit` when `sortBy` is `lastVisit` or absent (the
handler's default) — and as a permutation of that output. -/
theorem getDomains_sorted_as_requested (db : DB) (period : String) (now : Nat) :
    ((handleGetDomains db period now (some "visitCount")).Sorted
        (fun a b => b.visitCount ≤ a.visitCount) ∧
      (handleGetDomains db period now (some "visitCount")).Perm
        (getDomainsForPeriod db period now)) ∧
    ((handleGetDomains db period now (some "lastVisit")).Sorted
        (fun a b => b.lastVisit ≤ a.lastVisit) ∧
      (handleGetDomains db period now (some "lastVisit")).Perm
        (getDomainsForPeriod db period now)) ∧
    ((handleGetDomains db period now none).Sorted
        (fun a b => b.lastVisit ≤ a.lastVisit) ∧
      (handleGetDomains db period now none).Perm
        (getDomainsForPeriod db period now)) := by
  refine ⟨⟨?_, ?_⟩, ⟨?_, ?_⟩, ⟨?_, ?_⟩⟩ <;>
    simp only [handleGetDomains, sortGetDomains, Option.getD_some, Option.getD_none] <;>
    first
      | exact mergeSort_key_sorted _ _
      | exact List.mergeSort_perm _ _

theorem find?_putDomain_self (l : List DomainAggregate) (na : DomainAggregate) :
    (putDomain l na).find? (fun a => a.domain == na.domain) = some na := by
  induction l with
  | nil => simp [putDomain]
  | cons x xs ih =>
    by_cases h : x.domain = na.domain
    · simp [putDomain, h]
    · simp only [putDomain, beq_iff_eq, if_neg h]
      rw [List.find?_cons_of_neg _ (by simpa using h)]
      exact ih

theorem findAggregate_step_ok (db : DB) (d : String) (now : Nat) :
    findAggregate (addOrUpdateDomain db d now WriteOutcome.ok).1 d =
      some (match findAggregate db d with
            | some e =>
              { domain := d, firstVisit := e.firstVisit, lastVisit := now,
                visitCount := e.visitCount + 1 }
            | none =>
              { domain := d, firstVisit := now, lastVisit := now, visitCount := 1 }) := by
  unfold addOrUpdateDomain findAggregate
  cases h : List.find? (fun a => a.domain == d) db.domains with
  | some e =>
    simp only [h]
    exact find?_putDomain_self db.domains
      { domain := d, firstVisit := e.firstVisit, lastVisit := now,
        visitCount := e.visitCount + 1 }
  | none =>
    simp only [h]
    exact find?_putDomain_self db.domains
      { domain := d, firstVisit := now, lastVisit := now, visitCount := 1 }

theorem runVisits_from_some (d : String) (ts : List Nat) :
    ∀ (db : DB) (a : DomainAggregate), findAggregate db d = some a → a.domain = d →
      findAggregate (runVisits db d ts) d =
        some { domain := d, firstVisit := a.firstVisit, lastVisit := ts.getLastD a.lastVisit,
               visitCount := a.visitCount + ts.length } := by
  induction ts with
  | nil =>
    intro db a h hd
    obtain ⟨ad, af, al, ac⟩ := a
    simp_all [runVisits]
  | cons t ts ih =>
    intro db a h hd
    have hstep : findAggregate (addOrUpdateDomain db d t WriteOutcome.ok).1 d =
        some { domain := d, firstVisit := a.firstVisit, lastVisit := t,
               visitCount := a.visitCount + 1 } := by
      rw [findAggregate_step_ok, h]
    have hrun := ih (addOrUpdateDomain db d t WriteOutcome.ok).1 _ hstep rfl
    have hfold : runVisits db d (t :: ts) =
        runVisits (addOrUpdateDomain db d t WriteOutcome.ok).1 d ts := rfl
    rw [hfold, hrun]
    simp only [List.getLastD_cons, Option.some.injEq, DomainAggregate.mk.injEq,
      List.length_cons]
    refine ⟨trivial, trivial, trivial, ?_⟩
    omega

/-- C1: starting from a state with no aggregate for domain `d`, after `N ≥ 1`
accepted `addOrUpdateDomain` calls for `d` the stored aggregate has
`visitCount = N`, `firstVisit` equal to the timestamp taken at call 1, and
`lastVisit` equal to the timestamp taken at call `N`. -/
theorem record_visits_aggregate (db : DB) (d : String) (t : Nat) (ts : List Nat)
    (h0 : findAggregate db d = none) :
    findAggregate (runVisits db d (t :: ts)) d =
      some { domain := d, firstVisit := t, lastVisit := ts.getLastD t,
             visitCount := ts.length + 1 } := by
  have hstep : findAggregate (addOrUpdateDomain db d t WriteOutcome.ok).1 d =
      some { domain := d, firstVisit := t, lastVisit := t, visitCount := 1 } := by
    rw [findAggregate_step_ok, h0]
  have hrun := runVisits_from_some d ts (addOrUpdateDomain db d t WriteOutcome.ok).1 _ hstep rfl
  have hfold : runVisits db d (t :: ts) =
      runVisits (addOrUpdateDomain db d t WriteOutcome.ok).1 d ts := rfl
  rw [hfold, hrun]
  simp only [Option.some.injEq, DomainAggregate.mk.injEq]
  refine ⟨trivial, trivial, trivial, ?_⟩
  omega

/-- Witness for `record_visits_aggregate`: three visits to `a.com` at times
5, 7, 9 from the empty store give count 3, first visit 5, last visit 9. -/
theorem record_visits_aggregate_witness :
    findAggregate (runVisits emptyDB "a.com" [5, 7, 9]) "a.com" =
      some { domain := "a.com", firstVisit := 5, lastVisit := 9, visitCount := 3 } :=
  record_visits_aggregate emptyDB "a.com" 5 [7, 9] (by decide)

theorem visitsFoldStep_snd (acc : (String → Nat) × (String → Option Nat))
    (v : VisitEvent) (k : String) :
    (visitsFoldStep acc v).2 k =
      if k == v.domain then maxStepOpt (acc.2 k) v.timestamp else acc.2 k := rfl

theorem foldl_visitsFoldStep_counts (vs : List VisitEvent) :
    ∀ (acc : (String → Nat) × (String → Option Nat)) (d : String),
      (vs.foldl visitsFoldStep acc).1 d =
        acc.1 d + (vs.filter (fun v => v.domain == d)).length := by
  induction vs with
  | nil => intro acc d; simp
  | cons v vs ih =>
    intro acc d
    rw [List.foldl_cons, ih, List.filter_cons]
    by_cases h : v.domain = d
    · have hb : (d == v.domain) = true := by simp [h]
      simp only [visitsFoldStep, hb, if_true, h, beq_self_eq_true, if_pos,
        List.length_cons]
      omega
    · have hb : (d == v.domain) = false := by simp [Ne.symm h]
      have hb' : (v.domain == d) = false := by simp [h]
      simp [visitsFoldStep, hb, hb', Ne.symm h]

theorem foldl_visitsFoldStep_lasts (vs : List VisitEvent) :
    ∀ (acc : (String → Nat) × (String → Option Nat)) (d : String),
      (vs.foldl visitsFoldStep acc).2 d =
        ((vs.filter (fun v => v.domain == d)).map VisitEvent.timestamp).foldl
          maxStepOpt (acc.2 d) := by
  induction vs with
  | nil => intro acc d; simp
  | cons v vs ih =>
    intro acc d
    rw [List.foldl_cons, ih, List.filter_cons]
    by_cases h : v.domain = d
    · have hb : (d == v.domain) = true := by simp [h]
      have hb' : (v.domain == d) = true := by simp [h]
      simp only [visitsFoldStep_snd, hb, if_true, hb', List.map_cons, List.foldl_cons,
        if_pos]
    · have hb : (d == v.domain) = false := by simp [Ne.symm h]
      have hb' : (v.domain == d) = false := by simp [h]
      simp [visitsFoldStep_snd, hb, hb', Ne.symm h]

theorem foldl_maxStepOpt_isSome (l : List Nat) :
    ∀ o : Option Nat, o.isSome → (l.foldl maxStepOpt o).isSome := by
  induction l with
  | nil => intro o h; simpa using h
  | cons t l ih =>
    intro o h
    rw [List.foldl_cons]
    apply ih
    cases o with
    | none => simp at h
    | some m => simp [maxStepOpt]; split <;> simp

theorem foldl_maxStepOpt_some (l : List Nat) :
    ∀ (o : Option Nat) (m : Nat), l.foldl maxStepOpt o = some m →
      (o = some m ∨ m ∈ l) ∧ (∀ x, o = some x → x ≤ m) ∧ ∀ t ∈ l, t ≤ m := by
  induction l with
  | nil => intro o m h; simp_all
  | cons t l ih =>
    intro o m h
    rw [List.foldl_cons] at h
    obtain ⟨hmem, hub, hall⟩ := ih (maxStepOpt o t) m h
    cases o with
    | none =>
      refine ⟨?_, by simp, ?_⟩
      · rcases hmem with hmem | hmem
        · simp only [maxStepOpt, Option.some.injEq] at hmem
          simp [hmem]
        · simp [hmem]
      · intro x hx
        rcases List.mem_cons.mp hx with rfl | hx
        · exact hub x rfl
        · exact hall x hx
    | some m0 =>
      by_cases hlt : m0 < t
      · have hstep : maxStepOpt (some m0) t = some t := by simp [maxStepOpt, hlt]
        rw [hstep] at hmem hub
        have htm : t ≤ m := hub t rfl
        refine ⟨?_, ?_, ?_⟩
        · rcases hmem with hmem | hmem
          · simp only [Option.some.injEq] at hmem
            subst hmem; simp
          · simp [hmem]
        · intro x hx
          simp only [Option.some.injEq] at hx
          omega
        · intro x hx
          rcases List.mem_cons.mp hx with rfl | hx
          · exact htm
          · exact hall x hx
      · have hstep : maxStepOpt (some m0) t = some m0 := by simp [maxStepOpt, hlt]
        rw [hstep] at hmem hub
        have hm0 : m0 ≤ m := hub m0 rfl
        refine ⟨?_, ?_, ?_⟩
        · rcases hmem with hmem | hmem
          · simp only [Option.some.injEq] at hmem
            simp [hmem]
          · simp [hmem]
        · intro x hx
          simp only [Option.some.injEq] at hx
          omega
        · intro x hx
          rcases List.mem_cons.mp hx with rfl | hx
          · omega
          · exact hall x hx

/-- C10: every record returned by the full-schema period query carries the
period-scoped values: its `visitCount` equals the number of visit rows for
its domain whose timestamp is at or after the period boundary (duplicated in
`periodVisitCount`), and its `lastVisit` is the latest such timestamp (one of
them, bounding all of them); the lifetime aggregate count does not appear in
the record. -/
theorem period_record_fields (db : DB) (period : String) (now : Nat)
    (r : PeriodRecord) (hr : r ∈ getDomainsForPeriod db period now) :
    r.periodVisitCount = r.visitCount ∧
    r.visitCount =
      ((db.visits.filter (fun v => startBoundary period now ≤ v.timestamp)).filter
        (fun v => v.domain == r.domain)).length ∧
    r.lastVisit ∈
      ((db.visits.filter (fun v => startBoundary period now ≤ v.timestamp)).filter
        (fun v => v.domain == r.domain)).map VisitEvent.timestamp ∧
    ∀ t ∈ ((db.visits.filter (fun v => startBoundary period now ≤ v.timestamp)).filter
        (fun v => v.domain == r.domain)).map VisitEvent.timestamp, t ≤ r.lastVisit := by
  unfold getDomainsForPeriod at hr
  simp only [List.mem_map, List.mem_filter] at hr
  obtain ⟨a, ⟨ha, hpos⟩, hra⟩ := hr
  set scanned := db.visits.filter (fun v => startBoundary period now ≤ v.timestamp) with hscan
  have hcount : (visitsFold scanned).1 a.domain =
      (scanned.filter (fun v => v.domain == a.domain)).length := by
    have := foldl_visitsFoldStep_counts scanned (fun _ => 0, fun _ => none) a.domain
    simpa [visitsFold] using this
  have hlasts : (visitsFold scanned).2 a.domain =
      ((scanned.filter (fun v => v.domain == a.domain)).map VisitEvent.timestamp).foldl
        maxStepOpt none := by
    have := foldl_visitsFoldStep_lasts scanned (fun _ => 0, fun _ => none) a.domain
    simpa [visitsFold] using this
  have hpos' : 0 < (visitsFold scanned).1 a.domain := by
    simpa using hpos
  have hne : ((scanned.filter (fun v => v.domain == a.domain)).map VisitEvent.timestamp) ≠ [] := by
    intro hnil
    rw [hcount] at hpos'
    have : (scanned.filter (fun v => v.domain == a.domain)).length = 0 := by
      simpa using congrArg List.length hnil
    omega
  have hsome : (((scanned.filter (fun v => v.domain == a.domain)).map
      VisitEvent.timestamp).foldl maxStepOpt none).isSome := by
    cases hl : (scanned.filter (fun v => v.domain == a.domain)).map VisitEvent.timestamp with
    | nil => exact absurd hl hne
    | cons t l =>
      rw [List.foldl_cons]
      exact foldl_maxStepOpt_isSome l (maxStepOpt none t) (by simp [maxStepOpt])
  obtain ⟨m, hm⟩ := Option.isSome_iff_exists.mp hsome
  obtain ⟨hmem, -, hall⟩ := foldl_maxStepOpt_some _ none m hm
  have hmem' : m ∈ (scanned.filter (fun v => v.domain == a.domain)).map VisitEvent.timestamp := by
    rcases hmem with hmem | hmem
    · exact absurd hmem (by simp)
    · exact hmem
  have hrdom : r.domain = a.domain := by rw [← hra]
  have hrvc : r.visitCount = (visitsFold scanned).1 a.domain := by rw [← hra]
  have hrpc : r.periodVisitCount = (visitsFold scanned).1 a.domain := by rw [← hra]
  have hrlv : r.lastVisit = ((visitsFold scanned).2 a.domain).getD a.lastVisit := by rw [← hra]
  have hgd : ((visitsFold scanned).2 a.domain).getD a.lastVisit = m := by
    rw [hlasts, hm]; rfl
  refine ⟨by rw [hrpc, hrvc], ?_, ?_, ?_⟩
  · rw [hrvc, hcount, hrdom]
  · rw [hrlv, hgd, hrdom]
    exact hmem'
  · intro t ht
    rw [hrlv, hgd]
    rw [hrdom] at ht
    exact hall t ht

/-- Witness for `period_record_fields`: a store whose `a.com` aggregate has
lifetime count 3 but only two visit rows at or after the boundary; the
returned record carries the period count 2 and period-latest timestamp 9. -/
theorem period_record_fields_witness :
    ({ domain := "a.com", firstVisit := 1, lastVisit := 9, visitCount := 2,
        periodVisitCount := 2 } : PeriodRecord) ∈
      getDomainsForPeriod
        { domains := [{ domain := "a.com", firstVisit := 1, lastVisit := 9, visitCount := 3 }],
          visits := [{ id := 1, domain := "a.com", timestamp := 1 },
                     { id := 2, domain := "a.com", timestamp := 9 }],
          nextId := 3 } "all" 20 ∧
    (({ domain := "a.com", firstVisit := 1, lastVisit := 9, visitCount := 2,
          periodVisitCount := 2 } : PeriodRecord)).periodVisitCount =
      (({ domain := "a.com", firstVisit := 1, lastVisit := 9, visitCount := 2,
            periodVisitCount := 2 } : PeriodRecord)).visitCount := by
  have hmem :
      ({ domain := "a.com", firstVisit := 1, lastVisit := 9, visitCount := 2,
           periodVisitCount := 2 } : PeriodRecord) ∈
        getDomainsForPeriod
          { domains := [{ domain := "a.com", firstVisit := 1, lastVisit := 9, visitCount := 3 }],
            visits := [{ id := 1, domain := "a.com", timestamp := 1 },
                       { id := 2, domain := "a.com", timestamp := 9 }],
            nextId := 3 } "all" 20 := by
    simp [getDomainsForPeriod, getAllDomains, startBoundary, visitsFold, visitsFoldStep,
      List.mergeSort_singleton]
  exact ⟨hmem, (period_record_fields _ _ _ _ hmem).1⟩

theorem mem_getAllDomains (db : DB) (sortBy : String) (a : DomainAggregate) :
    a ∈ getAllDomains db sortBy ↔ a ∈ db.domains := by
  unfold getAllDomains
  split
  · exact (List.mergeSort_perm db.domains _).mem_iff
  · split
    · exact (List.mergeSort_perm db.domains _).mem_iff
    · exact Iff.rfl

/-- C7 counterexample: in a store holding one visit row for `x.com` but no
aggregate row (the aggregates table is empty), the period query returns no
record for `x.com` even though `x.com` has a matching visit event in the
period, refuting the claimed if-and-only-if over every store state. -/
theorem period_membership_counterexample :
    ¬ ((∃ r ∈ getDomainsForPeriod
          { domains := [], visits := [{ id := 1, domain := "x.com", timestamp := 100 }],
            nextId := 2 } "all" 0, r.domain = "x.com") ↔
        ∃ v ∈ ({ domains := [], visits := [{ id := 1, domain := "x.com", timestamp := 100 }],
                 nextId := 2 } : DB).visits,
          v.domain = "x.com" ∧ startBoundary "all" 0 ≤ v.timestamp) := by
  intro h
  obtain ⟨r, hr, -⟩ :=
    h.mpr ⟨{ id := 1, domain := "x.com", timestamp := 100 }, by simp, rfl, by decide⟩
  simp [getDomainsForPeriod, getAllDomains, List.mergeSort_nil] at hr

/-- C7 (amended): the period query result contains a domain exactly when that
domain has an aggregate row and at least one visit event at or after the
period boundary; in particular domains with zero matching events in the
period are always excluded. -/
theorem period_membership (db : DB) (period : String) (now : Nat) (d : String) :
    (∃ r ∈ getDomainsForPeriod db period now, r.domain = d) ↔
      ((∃ a ∈ db.domains, a.domain = d) ∧
        ∃ v ∈ db.visits, v.domain = d ∧ startBoundary period now ≤ v.timestamp) := by
  unfold getDomainsForPeriod
  constructor
  · rintro ⟨r, hr, hrd⟩
    simp only [List.mem_map, List.mem_filter] at hr
    obtain ⟨a, ⟨ha, hpos⟩, hra⟩ := hr
    have hadom : a.domain = d := by rw [← hrd, ← hra]
    have hamem : a ∈ db.domains := (mem_getAllDomains db "lastVisit" a).mp ha
    have hcount : (visitsFold
        (db.visits.filter (fun v => startBoundary period now ≤ v.timestamp))).1 a.domain =
        ((db.visits.filter (fun v => startBoundary period now ≤ v.timestamp)).filter
          (fun v => v.domain == a.domain)).length := by
      have := foldl_visitsFoldStep_counts
        (db.visits.filter (fun v => startBoundary period now ≤ v.timestamp))
        (fun _ => 0, fun _ => none) a.domain
      simpa [visitsFold] using this
    have hpos' : 0 < ((db.visits.filter
        (fun v => startBoundary period now ≤ v.timestamp)).filter
          (fun v => v.domain == a.domain)).length := by
      rw [← hcount]
      simpa using hpos
    obtain ⟨v, hv⟩ := List.exists_mem_of_ne_nil _ (List.length_pos.mp hpos')
    simp only [List.mem_filter, beq_iff_eq, decide_eq_true_eq] at hv
    exact ⟨⟨a, hamem, hadom⟩, v, hv.1.1, by rw [hv.2, hadom], hv.1.2⟩
  · rintro ⟨⟨a, ha, had⟩, v, hv, hvd, hvt⟩
    have hvmem : v ∈ (db.visits.filter
        (fun v => startBoundary period now ≤ v.timestamp)).filter
          (fun w => w.domain == a.domain) := by
      simp only [List.mem_filter, beq_iff_eq, decide_eq_true_eq]
      exact ⟨⟨hv, hvt⟩, by rw [hvd, had]⟩
    have hcount : (visitsFold
        (db.visits.filter (fun v => startBoundary period now ≤ v.timestamp))).1 a.domain =
        ((db.visits.filter (fun v => startBoundary period now ≤ v.timestamp)).filter
          (fun v => v.domain == a.domain)).length := by
      have := foldl_visitsFoldStep_counts
        (db.visits.filter (fun v => startBoundary period now ≤ v.timestamp))
        (fun _ => 0, fun _ => none) a.domain
      simpa [visitsFold] using this
    have hpos : 0 < (visitsFold
        (db.visits.filter (fun v => startBoundary period now ≤ v.timestamp))).1 a.domain := by
      rw [hcount]
      exact List.length_pos.mpr (List.ne_nil_of_mem hvmem)
    refine ⟨_, List.mem_map_of_mem _ (List.mem_filter.mpr
      ⟨(mem_getAllDomains db "lastVisit" a).mpr ha, by simpa using hpos⟩), had⟩

/-- Witness for `period_membership`: `a.com` has an aggregate row and a
matching visit in the `all` period, and the query indeed returns it. -/
theorem period_membership_witness :
    ∃ r ∈ getDomainsForPeriod
        { domains := [{ domain := "a.com", firstVisit := 3, lastVisit := 3, visitCount := 1 }],
          visits := [{ id := 1, domain := "a.com", timestamp := 3 }], nextId := 2 }
        "all" 10, r.domain = "a.com" :=
  (period_membership
      { domains := [{ domain := "a.com", firstVisit := 3, lastVisit := 3, visitCount := 1 }],
        visits := [{ id := 1, domain := "a.com", timestamp := 3 }], nextId := 2 }
      "all" 10 "a.com").mpr
    ⟨⟨{ domain := "a.com", firstVisit := 3, lastVisit := 3, visitCount := 1 }, by simp, rfl⟩,
     { id := 1, domain := "a.com", timestamp := 3 }, by simp, rfl, by decide⟩

/-- C3: for a single stored visit at timestamp `t`, the `today` period query
returns its domain exactly when `t` is at or after the local midnight of the
query time `q` (`q` rounded down to a whole day) — calendar-day semantics,
not a rolling 24-hour window: the visit at 23:59:59 (t = 86399) is excluded
when queried at 00:00:01 the next day (q = 86401) although only 2 seconds
apart, yet included when queried at 23:59:59 the same day (q = 86399). -/
theorem today_calendar_day_boundary :
    (∀ (d : String) (fv c t q i : Nat),
      (getDomainsForPeriod
          { domains := [{ domain := d, firstVisit := fv, lastVisit := t, visitCount := c }],
            visits := [{ id := i, domain := d, timestamp := t }], nextId := i + 1 }
          "today" q).map PeriodRecord.domain =
        if q - q % secondsPerDay ≤ t then [d] else []) ∧
    (getDomainsForPeriod
        { domains := [{ domain := "example.com", firstVisit := 86399, lastVisit := 86399,
                          visitCount := 1 }],
          visits := [{ id := 1, domain := "example.com", timestamp := 86399 }], nextId := 2 }
        "today" 86401).map PeriodRecord.domain = [] ∧
    (getDomainsForPeriod
        { domains := [{ domain := "example.com", firstVisit := 86399, lastVisit := 86399,
                          visitCount := 1 }],
          visits := [{ id := 1, domain := "example.com", timestamp := 86399 }], nextId := 2 }
        "today" 86399).map PeriodRecord.domain = ["example.com"] := by
  have hgen : ∀ (d : String) (fv c t q i : Nat),
      (getDomainsForPeriod
          { domains := [{ domain := d, firstVisit := fv, lastVisit := t, visitCount := c }],
            visits := [{ id := i, domain := d, timestamp := t }], nextId := i + 1 }
          "today" q).map PeriodRecord.domain =
        if q - q % secondsPerDay ≤ t then [d] else [] := by
    intro d fv c t q i
    have hstart : startBoundary "today" q = q - q % secondsPerDay := by
      simp [startBoundary]
    by_cases hle : q - q % secondsPerDay ≤ t
    · rw [if_pos hle]
      have hle' : q ≤ t + q % secondsPerDay := by omega
      simp [getDomainsForPeriod, getAllDomains, hstart, hle', visitsFold, visitsFoldStep,
        List.mergeSort_singleton]
    · rw [if_neg hle]
      have hle' : ¬q ≤ t + q % secondsPerDay := by omega
      simp [getDomainsForPeriod, getAllDomains, hstart, hle', visitsFold, visitsFoldStep,
        List.mergeSort_singleton]
  refine ⟨hgen, ?_, ?_⟩
  · have h := hgen "example.com" 86399 1 86399 86401 1
    rw [if_neg (by decide)] at h
    exact h
  · have h := hgen "example.com" 86399 1 86399 86399 1
    rw [if_pos (by decide)] at h
    exact h

theorem mem_putDomain_cases (l : List DomainAggregate) (na b : DomainAggregate)
    (hnd : (l.map DomainAggregate.domain).Nodup) (hb : b ∈ putDomain l na) :
    b = na ∨ (b ∈ l ∧ b.domain ≠ na.domain) := by
  induction l with
  | nil =>
    simp only [putDomain, List.mem_singleton] at hb
    exact Or.inl hb
  | cons x xs ih =>
    simp only [List.map_cons, List.nodup_cons] at hnd
    obtain ⟨hx, hxs⟩ := hnd
    by_cases h : x.domain = na.domain
    · rw [putDomain, if_pos (by simp [h])] at hb
      rcases List.mem_cons.mp hb with rfl | hbxs
      · exact Or.inl rfl
      · right
        refine ⟨List.mem_cons_of_mem _ hbxs, fun hbd => ?_⟩
        exact hx (by rw [h, ← hbd]; exact List.mem_map_of_mem _ hbxs)
    · rw [putDomain, if_neg (by simp [h])] at hb
      rcases List.mem_cons.mp hb with rfl | hb'
      · exact Or.inr ⟨List.mem_cons_self _ _, h⟩
      · rcases ih hxs hb' with h1 | ⟨h2, h3⟩
        · exact Or.inl h1
        · exact Or.inr ⟨List.mem_cons_of_mem _ h2, h3⟩

theorem self_mem_putDomain (l : List DomainAggregate) (na : DomainAggregate) :
    na ∈ putDomain l na := by
  induction l with
  | nil => simp [putDomain]
  | cons x xs ih =>
    rw [putDomain]
    split
    · exact List.mem_cons_self _ _
    · exact List.mem_cons_of_mem _ ih

theorem exists_key_putDomain (l : List DomainAggregate) (na a : DomainAggregate)
    (ha : a ∈ l) : ∃ b ∈ putDomain l na, b.domain = a.domain := by
  induction l with
  | nil => cases ha
  | cons x xs ih =>
    by_cases h : x.domain = na.domain
    · rw [putDomain, if_pos (by simp [h])]
      rcases List.mem_cons.mp ha with rfl | haxs
      · exact ⟨na, List.mem_cons_self _ _, h.symm⟩
      · exact ⟨a, List.mem_cons_of_mem _ haxs, rfl⟩
    · rw [putDomain, if_neg (by simp [h])]
      rcases List.mem_cons.mp ha with rfl | haxs
      · exact ⟨a, List.mem_cons_self _ _, rfl⟩
      · obtain ⟨b, hb, hbd⟩ := ih haxs
        exact ⟨b, List.mem_cons_of_mem _ hb, hbd⟩

theorem keys_putDomain_found (l : List DomainAggregate) (na a : DomainAggregate)
    (h : l.find? (fun x => x.domain == na.domain) = some a) :
    (putDomain l na).map DomainAggregate.domain = l.map DomainAggregate.domain := by
  induction l with
  | nil => simp at h
  | cons x xs ih =>
    by_cases hx : x.domain = na.domain
    · rw [putDomain, if_pos (by simp [hx])]
      simp [hx]
    · rw [putDomain, if_neg (by simp [hx])]
      rw [List.find?_cons_of_neg _ (by simp [hx])] at h
      simp [ih h]

theorem putDomain_of_not_found (l : List DomainAggregate) (na : DomainAggregate)
    (h : l.find? (fun x => x.domain == na.domain) = none) :
    putDomain l na = l ++ [na] := by
  induction l with
  | nil => simp [putDomain]
  | cons x xs ih =>
    by_cases hx : x.domain = na.domain
    · rw [List.find?_cons_of_pos _ (by simp [hx])] at h
      cases h
    · rw [List.find?_cons_of_neg _ (by simp [hx])] at h
      rw [putDomain, if_neg (by simp [hx])]
      simp [ih h]

theorem addOrUpdateDomain_ok_eq (db : DB) (d : String) (now : Nat) :
    (addOrUpdateDomain db d now WriteOutcome.ok).1 =
      { domains := putDomain db.domains
          (match findAggregate db d with
           | some e =>
             { domain := d, firstVisit := e.firstVisit, lastVisit := now,
               visitCount := e.visitCount + 1 }
           | none =>
             { domain := d, firstVisit := now, lastVisit := now, visitCount := 1 }),
        visits := db.visits ++ [{ id := db.nextId, domain := d, timestamp := now }],
        nextId := db.nextId + 1 } := rfl

theorem filter_visits_append_self (vs : List VisitEvent) (nv : VisitEvent) (k : String)
    (hk : nv.domain = k) :
    (vs ++ [nv]).filter (fun v => v.domain == k) =
      vs.filter (fun v => v.domain == k) ++ [nv] := by
  rw [List.filter_append]
  simp [hk]

theorem filter_visits_append_other (vs : List VisitEvent) (nv : VisitEvent) (k : String)
    (hk : nv.domain ≠ k) :
    (vs ++ [nv]).filter (fun v => v.domain == k) = vs.filter (fun v => v.domain == k) := by
  rw [List.filter_append]
  simp [hk]

theorem entry_unchanged_append (vs : List VisitEvent) (nv : VisitEvent)
    (b : DomainAggregate) (hbne : nv.domain ≠ b.domain)
    (h : b.visitCount = (vs.filter (fun v => v.domain == b.domain)).length ∧
         b.lastVisit ∈ (vs.filter (fun v => v.domain == b.domain)).map VisitEvent.timestamp ∧
         ∀ t ∈ (vs.filter (fun v => v.domain == b.domain)).map VisitEvent.timestamp,
           t ≤ b.lastVisit) :
    b.visitCount = ((vs ++ [nv]).filter (fun v => v.domain == b.domain)).length ∧
    b.lastVisit ∈ ((vs ++ [nv]).filter (fun v => v.domain == b.domain)).map
      VisitEvent.timestamp ∧
    ∀ t ∈ ((vs ++ [nv]).filter (fun v => v.domain == b.domain)).map VisitEvent.timestamp,
      t ≤ b.lastVisit := by
  rw [filter_visits_append_other vs nv b.domain hbne]
  exact h

theorem storeWF_step (db : DB) (d : String) (now : Nat) (o : WriteOutcome)
    (hwf : storeWF db) (hbelow : visitsBelow db now) :
    storeWF (addOrUpdateDomain db d now o).1 ∧
    visitsBelow (addOrUpdateDomain db d now o).1 now := by
  obtain ⟨hcons, hnd, hcov⟩ := hwf
  cases o with
  | getFails => exact ⟨⟨hcons, hnd, hcov⟩, hbelow⟩
  | putFails => exact ⟨⟨hcons, hnd, hcov⟩, hbelow⟩
  | addFails => exact ⟨⟨hcons, hnd, hcov⟩, hbelow⟩
  | ok =>
    rw [addOrUpdateDomain_ok_eq]
    have hbelow' : visitsBelow
        { domains := putDomain db.domains
            (match findAggregate db d with
             | some e =>
               { domain := d, firstVisit := e.firstVisit, lastVisit := now,
                 visitCount := e.visitCount + 1 }
             | none =>
               { domain := d, firstVisit := now, lastVisit := now, visitCount := 1 }),
          visits := db.visits ++
            [({ id := db.nextId, domain := d, timestamp := now } : VisitEvent)],
          nextId := db.nextId + 1 } now := by
      intro v hv
      simp only [List.mem_append, List.mem_singleton] at hv
      rcases hv with hv | rfl
      · exact hbelow v hv
      · exact le_refl _
    have hcov' : ∀ na : DomainAggregate, na.domain = d →
        visitsCovered
          { domains := putDomain db.domains na,
            visits := db.visits ++
              [({ id := db.nextId, domain := d, timestamp := now } : VisitEvent)],
            nextId := db.nextId + 1 } := by
      intro na hna v hv
      simp only [List.mem_append, List.mem_singleton] at hv
      rcases hv with hv | rfl
      · obtain ⟨a, ha, had⟩ := hcov v hv
        obtain ⟨b, hb, hbd⟩ := exists_key_putDomain db.domains na a ha
        exact ⟨b, hb, by rw [hbd, had]⟩
      · exact ⟨na, self_mem_putDomain db.domains na, hna⟩
    cases hex : findAggregate db d with
    | some e =>
      simp only [hex]
      have he_mem : e ∈ db.domains := List.mem_of_find?_eq_some hex
      have he_dom : e.domain = d := by
        have := List.find?_some hex
        simpa using this
      obtain ⟨hec, hem, heu⟩ := hcons e he_mem
      refine ⟨⟨?_, ?_, hcov' _ rfl⟩, hbelow'⟩
      · intro b hb
        rcases mem_putDomain_cases db.domains _ b hnd hb with rfl | ⟨hbmem, hbne⟩
        · have hfilter : ((db.visits ++
              [({ id := db.nextId, domain := d, timestamp := now } : VisitEvent)]).filter
                (fun v => v.domain == d)) =
              db.visits.filter (fun v => v.domain == d) ++
                [({ id := db.nextId, domain := d, timestamp := now } : VisitEvent)] :=
            filter_visits_append_self _ _ _ rfl
          refine ⟨?_, ?_, ?_⟩
          · show e.visitCount + 1 = _
            rw [hfilter, List.length_append, ← he_dom, ← hec]
            rfl
          · show now ∈ _
            rw [hfilter]
            simp
          · intro t ht
            rw [hfilter] at ht
            simp only [List.map_append, List.mem_append, List.map_cons, List.map_nil,
              List.mem_singleton] at ht
            rcases ht with ht | rfl
            · obtain ⟨v, hv, rfl⟩ := List.mem_map.mp ht
              exact hbelow v (List.mem_of_mem_filter hv)
            · exact le_refl _
        · exact entry_unchanged_append db.visits _ b (fun hc => hbne hc.symm)
            (hcons b hbmem)
      · have hkeys := keys_putDomain_found db.domains
          { domain := d, firstVisit := e.firstVisit, lastVisit := now,
            visitCount := e.visitCount + 1 } e hex
        unfold keysNodup
        simpa [hkeys] using hnd
    | none =>
      simp only [hex]
      have hnone : ∀ x ∈ db.domains, ¬(x.domain == d) = true :=
        List.find?_eq_none.mp hex
      have hempty : db.visits.filter (fun v => v.domain == d) = [] := by
        refine List.filter_eq_nil_iff.mpr ?_
        intro v hv hvd
        obtain ⟨a, ha, had⟩ := hcov v hv
        refine hnone a ha ?_
        simp only [beq_iff_eq] at hvd ⊢
        rw [had, hvd]
      refine ⟨⟨?_, ?_, hcov' _ rfl⟩, hbelow'⟩
      · intro b hb
        rcases mem_putDomain_cases db.domains _ b hnd hb with rfl | ⟨hbmem, hbne⟩
        · have hfilter : ((db.visits ++
              [({ id := db.nextId, domain := d, timestamp := now } : VisitEvent)]).filter
                (fun v => v.domain == d)) =
              [({ id := db.nextId, domain := d, timestamp := now } : VisitEvent)] := by
            rw [filter_visits_append_self db.visits
              ({ id := db.nextId, domain := d, timestamp := now } : VisitEvent) d rfl, hempty]
            rfl
          refine ⟨?_, ?_, ?_⟩
          · show 1 = _
            rw [hfilter]
            rfl
          · show now ∈ _
            rw [hfilter]
            simp
          · intro t ht
            rw [hfilter] at ht
            simp only [List.map_cons, List.map_nil, List.mem_singleton] at ht
            show t ≤ now
            omega
        · exact entry_unchanged_append db.visits _ b (fun hc => hbne hc.symm)
            (hcons b hbmem)
      · have happ := putDomain_of_not_found db.domains
          { domain := d, firstVisit := now, lastVisit := now, visitCount := 1 } hex
        unfold keysNodup
        simp only [happ, List.map_append, List.map_cons, List.map_nil]
        refine List.Nodup.append hnd (by simp) ?_
        intro k hk1 hk2
        simp only [List.mem_singleton] at hk2
        subst hk2
        obtain ⟨a, ha, had⟩ := List.mem_map.mp hk1
        refine hnone a ha ?_
        simp only [beq_iff_eq]
        exact had

theorem storeWF_runOps (ops : List RecordOp) :
    ∀ db : DB, storeWF db →
      (∀ v ∈ db.visits, ∀ op ∈ ops, v.timestamp ≤ op.now) →
      (ops.map RecordOp.now).Pairwise (· ≤ ·) →
      storeWF (runOps db ops) := by
  induction ops with
  | nil => exact fun db hwf _ _ => hwf
  | cons op ops ih =>
    intro db hwf hb hp
    simp only [List.map_cons, List.pairwise_cons] at hp
    obtain ⟨hph, hpt⟩ := hp
    have hbelow : visitsBelow db op.now :=
      fun v hv => hb v hv op (List.mem_cons_self _ _)
    obtain ⟨hwf', hbelow'⟩ :=
      storeWF_step db op.domain op.now op.outcome hwf hbelow
    have hrun : runOps db (op :: ops) =
        runOps (addOrUpdateDomain db op.domain op.now op.outcome).1 ops := rfl
    rw [hrun]
    refine ih _ hwf' ?_ hpt
    intro v hv op' hop'
    calc v.timestamp ≤ op.now := hbelow' v hv
      _ ≤ op'.now := hph op'.now (List.mem_map_of_mem _ hop')

/-- C2: running any sequence of `recordVisit` operations from the empty
store — including ones whose visit-row `add` fails — with non-decreasing call
timestamps leaves the store consistent: every aggregate's `visitCount` equals
the number of visit rows for its domain and its `lastVisit` is their maximum
(this holds after every prefix, since the sequence is arbitrary); moreover a
failing transaction leaves the state unchanged (rolled back), so a write
failure never leaves the aggregate and the visit log diverged. -/
theorem aggregate_visitlog_consistent (ops : List RecordOp)
    (hmono : (ops.map RecordOp.now).Pairwise (· ≤ ·)) :
    dbConsistent (runOps emptyDB ops) ∧
    (∀ (db : DB) (d : String) (t : Nat),
      (addOrUpdateDomain db d t WriteOutcome.addFails).1 = db ∧
      (addOrUpdateDomain db d t WriteOutcome.putFails).1 = db ∧
      (addOrUpdateDomain db d t WriteOutcome.getFails).1 = db) := by
  refine ⟨(storeWF_runOps ops emptyDB ?_ ?_ hmono).1, fun db d t => ⟨rfl, rfl, rfl⟩⟩
  · refine ⟨?_, ?_, ?_⟩
    · intro a ha
      simp [emptyDB] at ha
    · simp [keysNodup, emptyDB]
    · intro v hv
      simp [emptyDB] at hv
  · intro v hv
    simp [emptyDB] at hv

/-- Witness for `aggregate_visitlog_consistent`: two successful visits and
one visit whose row append fails, at non-decreasing timestamps, leave a
consistent store. -/
theorem aggregate_visitlog_consistent_witness :
    dbConsistent (runOps emptyDB
      [{ domain := "a.com", now := 5, outcome := WriteOutcome.ok },
       { domain := "a.com", now := 7, outcome := WriteOutcome.addFails },
       { domain := "b.com", now := 9, outcome := WriteOutcome.ok }]) :=
  (aggregate_visitlog_consistent
    [{ domain := "a.com", now := 5, outcome := WriteOutcome.ok },
     { domain := "a.com", now := 7, outcome := WriteOutcome.addFails },
     { domain := "b.com", now := 9, outcome := WriteOutcome.ok }] (by decide)).1

/-- Witness for `classifier_characterization`: a top-level typed navigation
to an https URL is written; the same event in frame 1 is not. -/
theorem classifier_characterization_witness :
    shouldTrackNavigation true
      { frameId := 0, transitionType := "typed", transitionQualifiers := [],
        url := some { protocol := "https:", hostname := "example.com" } } = true ∧
    shouldTrackNavigation true
      { frameId := 1, transitionType := "typed", transitionQualifiers := [],
        url := some { protocol := "https:", hostname := "example.com" } } = false :=
  ⟨(classifier_characterization true
      { frameId := 0, transitionType := "typed", transitionQualifiers := [],
        url := some { protocol := "https:", hostname := "example.com" } }).1.mpr
    ⟨rfl, rfl,
      ⟨{ protocol := "https:", hostname := "example.com" }, rfl, by decide, by decide⟩,
      Or.inl (by decide)⟩,
   (classifier_characterization true
      { frameId := 1, transitionType := "typed", transitionQualifiers := [],
        url := some { protocol := "https:", hostname := "example.com" } }).2 (by decide)⟩

end SiteCounter
